import Mathlib

/-!
Verification of the attendance automation engine
(`backend/app/attendance_automator.py` and the join/finalize slice of
`backend/app/services/attendance_service.py`).

The pandas pipeline is shallowly embedded as pure functions on lists of
records.  Conventions used throughout:

* a missing cell (pandas `NaN` / `NaT`) is `Option.none`;
* timestamps and calendar dates are integers (`ts` in minutes, a date is
  `ts.fdiv 1440`, mirroring `.dt.date`);
* `astype(str)` on an object column maps a missing cell to the *string*
  `"nan"`, exactly as pandas does;
* `df.sort_values` on several columns is a stable lexicographic sort
  (pandas uses `numpy.lexsort` for multi-key sorts), embedded with
  Mathlib's stable `List.insertionSort`; missing keys sort last
  (`na_position="last"`);
* `drop_duplicates(keep="first")` keeps the first row per key;
* floating point means/percentages are embedded as exact rationals.
-/

/-- One row of the normalized attendance frame: the columns `__ts`,
`__date`, `__email`, `__id`, `__name`, `__identity` created by
`load_attendance`. -/
structure AttendanceRecord where
  ts : Option Int
  date : Option Int
  email : Option String
  id : Option String
  name : Option String
  identity : Option String
deriving DecidableEq

/-- Python `str.strip` on the character list of a string. -/
def stripChars (l : List Char) : List Char :=
  ((l.dropWhile Char.isWhitespace).reverse.dropWhile Char.isWhitespace).reverse

/-- Python `str.strip` on a string. -/
def pyStrip (s : String) : String := String.mk (stripChars s.data)

/-- Pandas `astype(str)` on a single cell: a missing value becomes the
string `"nan"`. -/
def astypeStr (o : Option String) : String :=
  match o with
  | none => "nan"
  | some s => s

/-- Drops the suffix `suf` from `l`, or `none` when `suf` is not a suffix. -/
def stripSuffixQ (suf l : List Char) : Option (List Char) :=
  if suf.reverse.isPrefixOf l.reverse then some ((l.reverse.drop suf.length).reverse)
  else none

/-- One anchored literal substitution `re.sub(pat + "$", repl, l)` for a
pattern without metacharacters. -/
def subPlain (pat repl l : List Char) : List Char :=
  match stripSuffixQ pat l with
  | some pre => pre ++ repl
  | none => l

/-- One anchored substitution for the patterns written `r"...\\. ..."` in
`COMMON_DOMAIN_FIXES`: inside a raw string `\\` is an escaped backslash and
`.` is the any-character metacharacter, so the regex matches
`head ++ [c] ++ tail` at the end of the string for any character `c` other
than a newline, where `head` ends with a literal backslash. -/
def subBsDot (head tail repl l : List Char) : List Char :=
  match stripSuffixQ tail l with
  | none => l
  | some l1 =>
    match l1.getLast? with
    | none => l
    | some c =>
      if c == '\n' then l
      else
        match stripSuffixQ head l1.dropLast with
        | none => l
        | some pre => pre ++ repl

/-- The ordered substitutions of `COMMON_DOMAIN_FIXES`, applied in dict
insertion order exactly as `normalize_email` iterates them. -/
def applyDomainFixes (l : List Char) : List Char :=
  let l1 := subPlain ("@ucscedu".data) ("@ucsc.edu".data) l
  let l2 := subBsDot ("@ucsc\\".data) ("efu".data) ("@ucsc.edu".data) l1
  let l3 := subBsDot ("@ucsc\\".data) ("irg".data) ("@ucsc.edu".data) l2
  let l4 := subBsDot ("@uscs\\".data) ("edu".data) ("@ucsc.edu".data) l3
  subBsDot ("@gmail\\".data) ("con".data) ("@gmail.com".data) l4

/-- `normalize_email`: `NaN` passes through; otherwise strip, lowercase,
remove spaces, then apply the domain fixes. -/
def normalize_email (email : Option String) : Option String :=
  email.map fun s =>
    String.mk (applyDomainFixes (((stripChars s.data).map Char.toLower).filter (fun c => !(c == ' '))))

/-- The raw attendance CSV cells of one row (each `none` when the cell is
empty / unparseable). -/
structure RawAttendanceRow where
  ts : Option Int
  email : Option String
  id : Option String
  name : Option String

/-- Which of the optional attendance columns were located by
`load_attendance` (the schema check guarantees a timestamp column and
`hasEmail || hasId`). -/
structure AttendanceCols where
  hasEmail : Bool
  hasId : Bool
  hasName : Bool

/-- The condition of `np.where` in `load_attendance`: the cell is non-null
and not the empty string. -/
def identCond (o : Option String) : Bool :=
  o.isSome && decide (o ≠ some "")

/-- Row-wise embedding of `load_attendance` lines 102-108: builds `__ts`,
`__date`, `__email`, `__id`, `__name` and derives `__identity`.  Note that
when the id column exists, `astype(str)` turns a missing id cell into the
string `"nan"`. -/
def load_row (cols : AttendanceCols) (row : RawAttendanceRow) : AttendanceRecord :=
  let e := if cols.hasEmail then normalize_email row.email else none
  let i := if cols.hasId then some (pyStrip (astypeStr row.id)) else none
  let n := if cols.hasName then some (pyStrip (astypeStr row.name)) else none
  { ts := row.ts
    date := row.ts.map (Int.fdiv · 1440)
    email := e
    id := i
    name := n
    identity := if identCond i then i else if identCond e then e else n }

/-- Pandas `df["__date"] >= start` on one cell (`NaT` compares `False`). -/
def dateGeB (d : Option Int) (startDate : Int) : Bool :=
  match d with
  | none => false
  | some x => startDate ≤ x

/-- Pandas `df["__date"] <= end` on one cell (`NaT` compares `False`). -/
def dateLeB (d : Option Int) (endDate : Int) : Bool :=
  match d with
  | none => false
  | some x => x ≤ endDate

/-- `filter_weeks`: keep the records whose date lies in the closed window.
The source performs no validation of the window: it only builds the boolean
mask and slices. -/
def filter_weeks (df : List AttendanceRecord) (startDate endDate : Int) : List AttendanceRecord :=
  df.filter (fun r => dateGeB r.date startDate && dateLeB r.date endDate)

/-- Sample table for the `C1` counterexample: one valid record dated
between the (swapped) bounds. -/
def c1Table : List AttendanceRecord :=
  [{ ts := some (15 * 1440), date := some 15, email := some ("a@ucsc.edu"),
     id := none, name := some ("A"), identity := some ("a@ucsc.edu") }]

/-- C2 failing input: the loaded columns are Timestamp, Email, ID, Name. -/
def c2Cols : AttendanceCols := { hasEmail := true, hasId := true, hasName := true }

/-- C2 failing input: a row whose ID cell is empty (`NaN`) and whose email
cell is non-empty. -/
def c2Row : RawAttendanceRow :=
  { ts := some 0, email := some ("student@ucsc.edu"), id := none, name := some ("Jane Roe") }

/-- Ordering of nullable values used by `sort_values`: `NaT`/`NaN` sorts
last (`na_position="last"`), so `none` is the largest element. -/
def oleN : Option Int → Option Int → Bool
  | none, none => true
  | none, some _ => false
  | some _, none => true
  | some x, some y => x ≤ y

/-- Strict version of `oleN` (`none` is the largest element). -/
def oltN : Option Int → Option Int → Bool
  | none, _ => false
  | some _, none => true
  | some x, some y => x < y

/-- The lexicographic `(date, timestamp)` sort key comparison of
`dedup_same_day`'s `sort_values(["__date", "__ts"], ascending=[True, True])`
(a multi-key pandas sort is a stable lexsort). -/
def leKeyB (a b : AttendanceRecord) : Bool :=
  oltN a.date b.date || (decide (a.date = b.date) && oleN a.ts b.ts)

/-- `leKeyB` as a relation, for Mathlib's stable `insertionSort`. -/
def recLe (a b : AttendanceRecord) : Prop := leKeyB a b = true

instance : DecidableRel recLe := fun a b => inferInstanceAs (Decidable (_ = true))

/-- The single-key `sort_values("__ts")` comparison used to order
identities by first appearance. -/
def leTs (a b : AttendanceRecord) : Prop := oleN a.ts b.ts = true

instance : DecidableRel leTs := fun a b => inferInstanceAs (Decidable (_ = true))

/-- Pandas `drop_duplicates(subset=key, keep="first")`: keep the first row
of each key, scanning left to right with the set of already seen keys. -/
def dropDupBy {α κ : Type} [DecidableEq κ] (key : α → κ) : List α → List κ → List α
  | [], _ => []
  | r :: rs, seen =>
    if key r ∈ seen then dropDupBy key rs seen
    else r :: dropDupBy key rs (key r :: seen)

/-- Pandas `drop_duplicates(subset=key, keep="first")`. -/
def drop_duplicates {α κ : Type} [DecidableEq κ] (key : α → κ) (l : List α) : List α :=
  dropDupBy key l []

/-- The `(__identity, __date)` deduplication key of `dedup_same_day`. -/
def key2 (r : AttendanceRecord) : Option String × Option Int := (r.identity, r.date)

/-- `dedup_same_day`: stable sort by `(date, ts)` ascending, then keep the
first record per `(identity, date)` pair. -/
def dedup_same_day (df : List AttendanceRecord) : List AttendanceRecord :=
  drop_duplicates key2 (List.insertionSort recLe df)

/-- The composition applied by the pipeline (`cmd_process` line 230 and
`_run_processing` line 80): `dedup_same_day(filter_weeks(df, start, end))`. -/
def window_dedup (df : List AttendanceRecord) (startDate endDate : Int) : List AttendanceRecord :=
  dedup_same_day (filter_weeks df startDate endDate)

/-- Membership test `decide (key2 r = k)` for one `(identity, date)` key. -/
def sameKey (k : Option String × Option Int) (r : AttendanceRecord) : Bool :=
  decide (key2 r = k)

/-- The record the C7 claim says survives deduplication for key `k`: the
first record of `t`, in original row order, whose timestamp is minimal
among the records of `t` with key `k`. -/
def tsMinFirst (t : List AttendanceRecord) (k : Option String × Option Int)
    (a : AttendanceRecord) : Bool :=
  sameKey k a && t.all (fun b => !(sameKey k b) || oleN a.ts b.ts)

/-- Sample table for the C8 witness: two same-day check-ins of one
identity plus an out-of-window row. -/
def c8Table : List AttendanceRecord :=
  [{ ts := some (2 * 1440 + 30), date := some 2, email := some ("a@ucsc.edu"),
     id := none, name := some ("A"), identity := some ("a@ucsc.edu") },
   { ts := some (2 * 1440 + 5), date := some 2, email := some ("a@ucsc.edu"),
     id := none, name := some ("A"), identity := some ("a@ucsc.edu") },
   { ts := some (200 * 1440), date := some 200, email := some ("b@ucsc.edu"),
     id := none, name := some ("B"), identity := some ("b@ucsc.edu") }]

/-- One row of the `compute_counts` output frame (`cnt` merged with the
per-identity display columns `mini`). -/
structure CountsRow where
  identity : String
  attended_dates : List Int
  total_count : Nat
  week1_count : Nat
  week2_count : Nat
  max_possible : Nat
  percentage : ℚ
  email : Option String
  id : Option String
  name : Option String
deriving DecidableEq

/-- `sorted(set(...))` over non-null dates: distinct values in ascending
order. -/
def sortedUniqueInts (l : List Int) : List Int :=
  List.insertionSort (fun a b : Int => a ≤ b) (drop_duplicates (fun d => d) l)

/-- Sorted distinct identities, as produced by `groupby` (pandas groupby
sorts its keys and drops null keys). -/
def sortedUniqueStrs (l : List String) : List String :=
  List.insertionSort (fun a b : String => a ≤ b) (drop_duplicates (fun s => s) l)

/-- `compute_counts`: derives the lecture-date calendar from the distinct
non-null dates, splits weeks (`week1 = lecture_dates[:3]`,
`week2 = lecture_dates[3:6]` resp. `[3:]`), and builds one row per
distinct non-null identity with per-week counts, `max_possible = 6`,
`percentage = (w1 + w2) / 6 * 100`, and the display email/id/name taken
from the first original-order row of the identity
(`drop_duplicates("__identity")` on the unsorted frame).  Returns
`(rows, lecture_dates, week1, week2)`. -/
def compute_counts (t : List AttendanceRecord) :
    List CountsRow × List Int × List Int × List Int :=
  let lectureDates := sortedUniqueInts (t.filterMap (fun r => r.date))
  let week1 := if 3 ≤ lectureDates.length then lectureDates.take 3 else lectureDates
  let week2 :=
    if 6 ≤ lectureDates.length then (lectureDates.drop 3).take 3 else lectureDates.drop 3
  let identities := sortedUniqueStrs (t.filterMap (fun r => r.identity))
  let rows := identities.map fun i =>
    let attended :=
      sortedUniqueInts ((t.filter (fun r => decide (r.identity = some i))).filterMap
        (fun r => r.date))
    let w1 := attended.countP (fun d => decide (d ∈ week1))
    let w2 := attended.countP (fun d => decide (d ∈ week2))
    let firstRow := t.find? (fun r => decide (r.identity = some i))
    { identity := i
      attended_dates := attended
      total_count := attended.length
      week1_count := w1
      week2_count := w2
      max_possible := 6
      percentage := ((w1 : ℚ) + (w2 : ℚ)) / 6 * 100
      email := firstRow.bind (fun r => r.email)
      id := firstRow.bind (fun r => r.id)
      name := firstRow.bind (fun r => r.name) }
  (rows, lectureDates, week1, week2)

/-- One loaded roster/gradebook row with the normalized key columns
computed by `load_gradebook_csv` (`ID_str`, `SIS Login ID_norm`,
`Email_norm`, `__disp_name`) next to the raw `SIS Login ID` / `Email`
cells kept for the final output. -/
structure RosterRow where
  disp : Option String
  idStr : String
  sisRaw : Option String
  emailRaw : Option String
  sisNorm : Option String
  emailNorm : Option String
deriving DecidableEq

/-- A loaded roster table: which optional key columns exist, plus the
rows.  A column flag `false` means the corresponding normalized column was
never created by `load_gradebook_csv`. -/
structure Roster where
  hasID : Bool
  hasSIS : Bool
  hasEmail : Bool
  rows : List RosterRow
deriving DecidableEq

/-- `astype(str).str.strip()` applied to the counts `__id` cell inside
`join_id` (a missing id becomes the string `"nan"`). -/
def astypeStrStrip (o : Option String) : String := pyStrip (astypeStr o)

/-- The id-join key comparison: both sides are real strings after
`astype(str)`, so they always compare (including `"nan" == "nan"`). -/
def matchId (r : RosterRow) (c : CountsRow) : Bool :=
  decide (r.idStr = astypeStrStrip c.id)

/-- Pandas merge key equality on nullable keys: `NaN` never matches. -/
def optKeyMatch (a b : Option String) : Bool :=
  match a, b with
  | some x, some y => decide (x = y)
  | _, _ => false

/-- The email-join comparison against `SIS Login ID_norm`. -/
def matchSis (r : RosterRow) (c : CountsRow) : Bool :=
  optKeyMatch r.sisNorm (normalize_email c.email)

/-- The email-join comparison against `Email_norm`. -/
def matchEmail (r : RosterRow) (c : CountsRow) : Bool :=
  optKeyMatch r.emailNorm (normalize_email c.email)

/-- `roster.merge(counts, how="left")`: every roster row is kept; a row
with matches produces one output row per matching counts row, a row
without matches produces a single row with null counts fields. -/
def mergeLeft (mf : RosterRow → CountsRow → Bool) (rows : List RosterRow)
    (counts : List CountsRow) : List (RosterRow × Option CountsRow) :=
  rows.flatMap fun r =>
    match counts.filter (mf r) with
    | [] => [(r, none)]
    | ms => ms.map (fun c => (r, some c))

/-- `(~m["week1_count"].isna()).mean() * 100`: the fraction of merged rows
whose counts side is present, as an exact rational. -/
def coverage (m : List (RosterRow × Option CountsRow)) : ℚ :=
  ((m.countP (fun p => p.2.isSome) : ℚ) / (m.length : ℚ)) * 100

/-- `join_id()` in `try_join_modes`: `(None, 0.0)` when the roster has no
`ID` column, otherwise the id-join and its coverage. -/
def join_id_result (counts : List CountsRow) (roster : Roster) :
    Option (List (RosterRow × Option CountsRow)) × ℚ :=
  if roster.hasID then
    (some (mergeLeft matchId roster.rows counts), coverage (mergeLeft matchId roster.rows counts))
  else (none, 0)

/-- `join_email()` in `try_join_modes`: prefers `SIS Login ID_norm`, falls
back to `Email_norm`, and returns `(None, 0.0)` when neither column
exists. -/
def join_email_result (counts : List CountsRow) (roster : Roster) :
    Option (List (RosterRow × Option CountsRow)) × ℚ :=
  if roster.hasSIS then
    (some (mergeLeft matchSis roster.rows counts), coverage (mergeLeft matchSis roster.rows counts))
  else if roster.hasEmail then
    (some (mergeLeft matchEmail roster.rows counts),
      coverage (mergeLeft matchEmail roster.rows counts))
  else (none, 0)

/-- `try_join_modes`: computes both candidate joins and returns the email
join when `em_cov >= id_cov`, else the id join, together with the mode
label and the selected coverage. -/
def try_join_modes (counts : List CountsRow) (roster : Roster) :
    Option (List (RosterRow × Option CountsRow)) × String × ℚ :=
  if (join_id_result counts roster).2 ≤ (join_email_result counts roster).2 then
    ((join_email_result counts roster).1, "email", (join_email_result counts roster).2)
  else ((join_id_result counts roster).1, "id", (join_id_result counts roster).2)

/-- One row of the finalized output frame (`finalize_output`): the kept
columns, with the numeric columns coerced and null-filled. -/
structure FinalRow where
  student : Option String
  id : Option String
  sisLoginId : Option String
  email : Option String
  week1_count : ℚ
  week2_count : ℚ
  total_count : ℚ
  max_possible : ℚ
  percentage : ℚ
deriving DecidableEq

/-- `finalize_output` on one merged row: `to_numeric(...).fillna(0.0)` for
the count columns and `fillna(6.0)` for `max_possible`; an unmatched
roster row therefore gets zeros and `max_possible = 6`.  The id / SIS /
email columns are kept only when present in the merged frame. -/
def finRow (hasID hasSIS hasEmail : Bool) (p : RosterRow × Option CountsRow) : FinalRow :=
  match p.2 with
  | none =>
    { student := p.1.disp
      id := if hasID then some p.1.idStr else none
      sisLoginId := if hasSIS then p.1.sisRaw else none
      email := if hasEmail then p.1.emailRaw else none
      week1_count := 0
      week2_count := 0
      total_count := 0
      max_possible := 6
      percentage := 0 }
  | some c =>
    { student := p.1.disp
      id := if hasID then some p.1.idStr else none
      sisLoginId := if hasSIS then p.1.sisRaw else none
      email := if hasEmail then p.1.emailRaw else none
      week1_count := (c.week1_count : ℚ)
      week2_count := (c.week2_count : ℚ)
      total_count := (c.total_count : ℚ)
      max_possible := (c.max_possible : ℚ)
      percentage := c.percentage }

/-- `finalize_output` over the merged frame. -/
def finalize_output (hasID hasSIS hasEmail : Bool)
    (m : List (RosterRow × Option CountsRow)) : List FinalRow :=
  m.map (finRow hasID hasSIS hasEmail)

/-- The join-and-finalize slice of `AttendanceService._run_processing`
(lines 84-99) for `join_mode="auto"`: the merged result of
`try_join_modes` flows into `finalize_output` unconditionally, so a `None`
merged table raises (`AttributeError` on `None.columns`), modelled as an
error value. -/
def run_auto_join (counts : List CountsRow) (roster : Roster) : Except String (List FinalRow) :=
  match try_join_modes counts roster with
  | (none, _, _) => Except.error ("AttributeError: NoneType object has no attribute columns")
  | (some m, _, _) =>
    Except.ok (finalize_output roster.hasID roster.hasSIS roster.hasEmail m)

/-- The `mini` frame of `write_matrix`:
`sort_values("__ts").drop_duplicates("__identity", keep="first")` — one
representative row per identity, ordered by earliest timestamp. -/
def miniOf (t : List AttendanceRecord) : List AttendanceRecord :=
  drop_duplicates (fun r => r.identity) (List.insertionSort leTs t)

/-- Whether identity `i` has a pivot entry for date `d`: the pivot table
is built from the non-null `(identity, date)` pairs, and the left merge
never matches a null identity. -/
def attendedB (t : List AttendanceRecord) (i : Option String) (d : Int) : Bool :=
  i.isSome && t.any (fun x => decide (x.identity = i) && decide (x.date = some d))

/-- One row of the per-lecture matrix: `Student, ID, Email`, the 0/1
indicator per selected date, `total_count` (the row sum), `max_possible`
and `percentage`. -/
structure MatRow where
  identity : Option String
  name : Option String
  id : Option String
  email : Option String
  indicators : List Nat
  total_count : Nat
  max_possible : Nat
  percentage : ℚ
deriving DecidableEq

/-- `write_matrix`: one row per identity of `mini`, a 0/1 indicator column
per selected date (0-filled for identities or dates without a pivot
entry), `total_count = mat[six_dates].sum(axis=1)`, `max_possible = 6`
and `percentage = total / 6 * 100`. -/
def write_matrix (t : List AttendanceRecord) (sixDates : List Int) : List MatRow :=
  (miniOf t).map fun r =>
    let ind := sixDates.map (fun d => if attendedB t r.identity d then (1 : Nat) else 0)
    { identity := r.identity
      name := r.name
      id := r.id
      email := r.email
      indicators := ind
      total_count := ind.sum
      max_possible := 6
      percentage := ((ind.sum : ℚ) / 6) * 100 }

/-- Minimum of two nullable timestamps (a missing timestamp is the
neutral largest element). -/
def ominO : Option Int → Option Int → Option Int
  | none, b => b
  | a, none => a
  | some x, some y => some (min x y)

/-- Minimum of a list of nullable timestamps. -/
def foldMinO (l : List (Option Int)) : Option Int := l.foldr ominO none

/-- The earliest check-in timestamp of identity `i` in table `t`. -/
def earliestTs (t : List AttendanceRecord) (i : Option String) : Option Int :=
  foldMinO ((t.filter (fun r => decide (r.identity = i))).map (fun r => r.ts))

/-- Sample attendance table for the C5 witness. -/
def c5Table : List AttendanceRecord :=
  [{ ts := some 10, date := some 1, email := some ("s1@ucsc.edu"),
     id := none, name := some ("S One"), identity := some ("s1") }]

/-- The counts row `compute_counts` produces for `c5Table`. -/
def c5Row : CountsRow :=
  { identity := "s1", attended_dates := [1], total_count := 1, week1_count := 1,
    week2_count := 0, max_possible := 6,
    percentage := (((1 : Nat) : ℚ) + ((0 : Nat) : ℚ)) / 6 * 100,
    email := some ("s1@ucsc.edu"), id := none, name := some ("S One") }

/-- Sample roster row for the join witnesses. -/
def wRosterRow : RosterRow :=
  { disp := some ("S One"), idStr := "123", sisRaw := some ("s1@ucsc.edu"),
    emailRaw := some ("s1@ucsc.edu"), sisNorm := some ("s1@ucsc.edu"),
    emailNorm := some ("s1@ucsc.edu") }

/-- Sample roster (ID and Email columns present) for the C4 witness. -/
def wRoster : Roster :=
  { hasID := true, hasSIS := false, hasEmail := true, rows := [wRosterRow] }

/-- Sample counts table for the C4 witness. -/
def wCounts : List CountsRow := [c5Row]

/-- Roster with none of the recognized key columns, for the C10 witness. -/
def c10Roster : Roster :=
  { hasID := false, hasSIS := false, hasEmail := false, rows := [wRosterRow] }

/-- C1: the spec claims the Window Filter fails with `DateRangeError` when
start > end.  The code raises nothing: with start = 20 > end = 10 it
returns a table (the empty one) for a non-empty input, and the pipeline
continues. -/
theorem c1_counterexample : c1Table ≠ [] ∧ filter_weeks c1Table 20 10 = [] := by
  constructor
  · decide
  · decide

/-- C1 (amended): for every attendance table and start > end, `filter_weeks`
raises no error and returns the empty table, because no date can be both
≥ start and ≤ end. -/
theorem c1_amended (df : List AttendanceRecord) (startDate endDate : Int)
    (h : endDate < startDate) : filter_weeks df startDate endDate = [] := by
  unfold filter_weeks
  rw [List.filter_eq_nil_iff]
  intro r _
  cases hd : r.date with
  | none => simp [dateGeB, hd]
  | some x =>
    simp only [dateGeB, dateLeB, hd, Bool.and_eq_true, decide_eq_true_eq]
    rintro ⟨h1, h2⟩
    omega

/-- C1 amended witness at concrete input. -/
theorem c1_amended_witness : (10 : Int) < 20 ∧ filter_weeks c1Table 20 10 = [] :=
  ⟨by decide, c1_amended c1Table 20 10 (by decide)⟩

/-- C2: with an ID column present but the ID cell missing and the email
cell non-empty, the claim says `derived_identity` is the normalized email;
the code instead derives the string `"nan"` (pandas `astype(str)` turns the
missing cell into `"nan"`, which passes the non-empty guard). -/
theorem c2_bug :
    (load_row c2Cols c2Row).identity = some ("nan") ∧
      (load_row c2Cols c2Row).identity ≠ some ("student@ucsc.edu") := by
  constructor
  · decide
  · decide

/-- C3: trim, lowercase and space removal work, and the metacharacter-free
pattern `@ucscedu$` is rewritten; but the typo domains of the claim are
untouched because the raw-string patterns `r"@ucsc\\.efu$"` etc. contain an
escaped backslash and so only match a literal backslash followed by any
character.  The last conjunct shows the pattern firing on the input the
regex actually describes. -/
theorem c3_bug :
    normalize_email (some (" A b@ucscedu ")) = some ("ab@ucsc.edu") ∧
      normalize_email (some ("a@ucsc.efu")) = some ("a@ucsc.efu") ∧
      normalize_email (some ("a@ucsc.irg")) = some ("a@ucsc.irg") ∧
      normalize_email (some ("a@uscs.edu")) = some ("a@uscs.edu") ∧
      normalize_email (some ("a@gmail.con")) = some ("a@gmail.con") ∧
      normalize_email (some ("a@ucsc\\zefu")) = some ("a@ucsc.edu") := by
  refine ⟨?_, ?_, ?_, ?_, ?_, ?_⟩ <;> decide

/-- Reflexivity of the nullable ordering. -/
theorem oleN_refl (a : Option Int) : oleN a a = true := by
  cases a <;> simp [oleN]

/-- Totality of the nullable ordering. -/
theorem oleN_total (a b : Option Int) : oleN a b = true ∨ oleN b a = true := by
  cases a <;> cases b <;> simp [oleN] <;> omega

/-- Transitivity of the nullable ordering. -/
theorem oleN_trans {a b c : Option Int} (h1 : oleN a b = true) (h2 : oleN b c = true) :
    oleN a c = true := by
  cases a <;> cases b <;> cases c <;> simp_all [oleN] <;> omega

/-- Irreflexivity of the strict nullable ordering. -/
theorem oltN_irrefl (a : Option Int) : oltN a a = false := by
  cases a <;> simp [oltN]

/-- Transitivity of the strict nullable ordering. -/
theorem oltN_trans {a b c : Option Int} (h1 : oltN a b = true) (h2 : oltN b c = true) :
    oltN a c = true := by
  cases a <;> cases b <;> cases c <;> simp_all [oltN] <;> omega

/-- Two incomparable nullable values are equal. -/
theorem oltN_connex {a b : Option Int} (h1 : oltN a b = false) (h2 : oltN b a = false) :
    a = b := by
  cases a <;> cases b <;> simp_all [oltN] <;> omega

/-- The `(date, ts)` sort relation is reflexive. -/
theorem recLe_refl (a : AttendanceRecord) : recLe a a := by
  unfold recLe leKeyB
  simp [oleN_refl]

/-- The `(date, ts)` sort relation is total. -/
theorem recLe_total (a b : AttendanceRecord) : recLe a b ∨ recLe b a := by
  unfold recLe leKeyB
  simp only [Bool.or_eq_true, Bool.and_eq_true, decide_eq_true_eq]
  cases hd : oltN a.date b.date with
  | true => exact Or.inl (Or.inl rfl)
  | false =>
    cases hd2 : oltN b.date a.date with
    | true => exact Or.inr (Or.inl rfl)
    | false =>
      have heq : a.date = b.date := oltN_connex hd hd2
      rcases oleN_total a.ts b.ts with h | h
      · exact Or.inl (Or.inr ⟨heq, h⟩)
      · exact Or.inr (Or.inr ⟨heq.symm, h⟩)

/-- The `(date, ts)` sort relation is transitive. -/
theorem recLe_trans (a b c : AttendanceRecord) (h1 : recLe a b) (h2 : recLe b c) :
    recLe a c := by
  unfold recLe leKeyB at h1 h2 ⊢
  simp only [Bool.or_eq_true, Bool.and_eq_true, decide_eq_true_eq] at h1 h2 ⊢
  rcases h1 with h1 | ⟨he1, ht1⟩ <;> rcases h2 with h2 | ⟨he2, ht2⟩
  · exact Or.inl (oltN_trans h1 h2)
  · exact Or.inl (he2 ▸ h1)
  · exact Or.inl (he1 ▸ h2)
  · exact Or.inr ⟨he1.trans he2, oleN_trans ht1 ht2⟩

/-- The first-appearance sort relation is total. -/
theorem leTs_total (a b : AttendanceRecord) : leTs a b ∨ leTs b a := oleN_total a.ts b.ts

/-- The first-appearance sort relation is transitive. -/
theorem leTs_trans (a b c : AttendanceRecord) (h1 : leTs a b) (h2 : leTs b c) : leTs a c :=
  oleN_trans h1 h2

/-- For two records with the same sort date, the lexicographic comparison
reduces to the timestamp comparison. -/
theorem leKeyB_of_same_date {a b : AttendanceRecord} (h : a.date = b.date) :
    leKeyB a b = oleN a.ts b.ts := by
  unfold leKeyB
  rw [h, oltN_irrefl]
  simp

/-- Deciding the sort relation computes the boolean comparison. -/
theorem decide_recLe (a b : AttendanceRecord) : decide (recLe a b) = leKeyB a b := by
  cases hb : leKeyB a b <;> simp [recLe, hb]

/-- `dropDupBy` returns a sublist of its input. -/
theorem dropDupBy_sublist {α κ : Type} [DecidableEq κ] (key : α → κ) :
    ∀ (l : List α) (seen : List κ), List.Sublist (dropDupBy key l seen) l
  | [], _ => List.Sublist.refl _
  | r :: rs, seen => by
    unfold dropDupBy
    split
    · exact List.Sublist.cons r (dropDupBy_sublist key rs seen)
    · exact List.Sublist.cons₂ r (dropDupBy_sublist key rs _)

/-- Keys of rows surviving `dropDupBy` were not previously seen. -/
theorem mem_dropDupBy_not_seen {α κ : Type} [DecidableEq κ] (key : α → κ) :
    ∀ (l : List α) (seen : List κ) (x : α), x ∈ dropDupBy key l seen → key x ∉ seen
  | [], _, x, hx => absurd hx (List.not_mem_nil x)
  | r :: rs, seen, x, hx => by
    unfold dropDupBy at hx
    split at hx
    · exact mem_dropDupBy_not_seen key rs seen x hx
    · rcases List.mem_cons.mp hx with rfl | hx'
      · assumption
      · have := mem_dropDupBy_not_seen key rs _ x hx'
        exact fun hc => this (List.mem_cons_of_mem _ hc)

/-- `dropDupBy` keeps at most one row per key. -/
theorem dropDupBy_pairwise {α κ : Type} [DecidableEq κ] (key : α → κ) :
    ∀ (l : List α) (seen : List κ),
      (dropDupBy key l seen).Pairwise (fun a b => key a ≠ key b)
  | [], _ => List.Pairwise.nil
  | r :: rs, seen => by
    unfold dropDupBy
    split
    · exact dropDupBy_pairwise key rs seen
    · refine List.Pairwise.cons ?_ (dropDupBy_pairwise key rs _)
      intro y hy
      have := mem_dropDupBy_not_seen key rs _ y hy
      exact fun hc => this (hc ▸ List.mem_cons_self _ _)

/-- `dropDupBy` is the identity on a list whose keys are pairwise distinct
and disjoint from `seen`. -/
theorem dropDupBy_eq_self {α κ : Type} [DecidableEq κ] (key : α → κ) :
    ∀ (l : List α) (seen : List κ),
      l.Pairwise (fun a b => key a ≠ key b) → (∀ x ∈ l, key x ∉ seen) →
        dropDupBy key l seen = l
  | [], _, _, _ => rfl
  | r :: rs, seen, hp, hs => by
    unfold dropDupBy
    rw [if_neg (hs r (List.mem_cons_self r rs))]
    congr 1
    rcases List.pairwise_cons.mp hp with ⟨hr, hp'⟩
    refine dropDupBy_eq_self key rs _ hp' ?_
    intro x hx
    rw [List.mem_cons]
    rintro (hc | hc)
    · exact hr x hx hc.symm
    · exact hs x (List.mem_cons_of_mem r hx) hc

/-- Every key present in the input and not previously seen keeps a
representative in `dropDupBy`. -/
theorem exists_mem_dropDupBy {α κ : Type} [DecidableEq κ] (key : α → κ) :
    ∀ (l : List α) (seen : List κ) (x : α), x ∈ l → key x ∉ seen →
      ∃ y ∈ dropDupBy key l seen, key y = key x
  | [], _, x, hx, _ => absurd hx (List.not_mem_nil x)
  | r :: rs, seen, x, hx, hns => by
    unfold dropDupBy
    split
    · rcases List.mem_cons.mp hx with rfl | hx'
      · exact absurd (by assumption) hns
      · exact exists_mem_dropDupBy key rs seen x hx' hns
    · rcases List.mem_cons.mp hx with rfl | hx'
      · refine ⟨_, List.mem_cons_self _ _, rfl⟩
      · by_cases hk : key x = key r
        · exact ⟨r, List.mem_cons_self _ _, hk.symm⟩
        · have hns' : key x ∉ key r :: seen := by
            rw [List.mem_cons]
            rintro (hc | hc)
            · exact hk hc
            · exact hns hc
          obtain ⟨y, hy, hky⟩ := exists_mem_dropDupBy key rs _ x hx' hns'
          exact ⟨y, List.mem_cons_of_mem r hy, hky⟩

/-- The rows of `dropDupBy` with key `k` are exactly the first input row
with key `k` (or nothing, when `k` was already seen or never occurs). -/
theorem dropDupBy_filter_key {α κ : Type} [DecidableEq κ] (key : α → κ) (k : κ) :
    ∀ (l : List α) (seen : List κ),
      (dropDupBy key l seen).filter (fun x => decide (key x = k))
        = if k ∈ seen then [] else (l.find? (fun x => decide (key x = k))).toList
  | [], seen => by
    unfold dropDupBy
    split <;> rfl
  | r :: rs, seen => by
    unfold dropDupBy
    split
    · rename_i hseen
      rw [dropDupBy_filter_key key k rs seen]
      by_cases hk : k ∈ seen
      · rw [if_pos hk, if_pos hk]
      · rw [if_neg hk, if_neg hk]
        have hne : ¬ key r = k := fun hc => hk (hc ▸ hseen)
        rw [List.find?_cons_of_neg _ (by simpa using hne)]
    · rename_i hseen
      rw [List.filter_cons]
      by_cases hk : key r = k
      · rw [if_pos (by simpa using hk)]
        rw [dropDupBy_filter_key key k rs (key r :: seen)]
        rw [if_pos (by rw [List.mem_cons]; exact Or.inl hk.symm)]
        have hknm : k ∉ seen := fun hc => hseen (hk ▸ hc)
        rw [if_neg hknm, List.find?_cons_of_pos _ (by simpa using hk)]
        rfl
      · rw [if_neg (by simpa using hk)]
        rw [dropDupBy_filter_key key k rs (key r :: seen)]
        by_cases hks : k ∈ seen
        · rw [if_pos (List.mem_cons_of_mem _ hks), if_pos hks]
        · rw [if_neg ?_, if_neg hks]
          · rw [List.find?_cons_of_neg _ (by simpa using hk)]
          · rw [List.mem_cons]
            rintro (hc | hc)
            · exact hk hc.symm
            · exact hks hc

/-- `find?` respects predicates equal on the members of the list. -/
theorem findCongrMem {α : Type} {f g : α → Bool} :
    ∀ {l : List α}, (∀ x ∈ l, f x = g x) → l.find? f = l.find? g
  | [], _ => rfl
  | a :: l, h => by
    have ha : f a = g a := h a (List.mem_cons_self a l)
    cases hfa : f a with
    | true => rw [List.find?_cons_of_pos _ hfa, List.find?_cons_of_pos _ (ha ▸ hfa)]
    | false =>
      rw [List.find?_cons_of_neg _ (by simp [hfa]), List.find?_cons_of_neg _ (by simp [ha ▸ hfa])]
      exact findCongrMem fun x hx => h x (List.mem_cons_of_mem a hx)

/-- `all` respects predicates equal on the members of the list. -/
theorem allCongrMem {α : Type} {f g : α → Bool} :
    ∀ {l : List α}, (∀ x ∈ l, f x = g x) → l.all f = l.all g
  | [], _ => rfl
  | a :: l, h => by
    rw [List.all_cons, List.all_cons, h a (List.mem_cons_self a l),
      allCongrMem fun x hx => h x (List.mem_cons_of_mem a hx)]

/-- In a sorted list, every member strictly below `a` (in the sense
`¬ r a b`) lies in the prefix `takeWhile (¬ r a ·)`. -/
theorem mem_takeWhile_sorted {α : Type} (r : α → α → Prop) [DecidableRel r]
    (htr : ∀ a b c, r a b → r b c → r a c) (a : α) :
    ∀ {s : List α}, List.Sorted r s → ∀ {b}, b ∈ s → ¬ r a b →
      b ∈ s.takeWhile (fun x => decide ¬ (r a x))
  | [], _, b, hb, _ => absurd hb (List.not_mem_nil b)
  | c :: s', hs, b, hb, hnab => by
    rcases List.sorted_cons.mp hs with ⟨hc, hs'⟩
    have hnac : ¬ r a c := by
      intro hac
      rcases List.mem_cons.mp hb with rfl | hb'
      · exact hnab hac
      · exact hnab (htr a c b hac (hc b hb'))
    rw [List.takeWhile_cons, if_pos (by simpa using hnac)]
    rcases List.mem_cons.mp hb with rfl | hb'
    · exact List.mem_cons_self _ _
    · exact List.mem_cons_of_mem c (mem_takeWhile_sorted r htr a hs' hb' hnab)

/-- Stability of the embedded sort, packaged for deduplication: the first
`p`-element of the sorted list is the first `p`-element of the input that
is `r`-below every `p`-element of the input. -/
theorem find?_insertionSort_eq {α : Type} (r : α → α → Prop) [DecidableRel r]
    (htot : ∀ a b, r a b ∨ r b a) (htr : ∀ a b c, r a b → r b c → r a c)
    (p : α → Bool) :
    ∀ l : List α, (List.insertionSort r l).find? p
      = l.find? (fun a => p a && l.all (fun b => !(p b) || decide (r a b)))
  | [] => rfl
  | a :: l => by
    haveI : IsTotal α r := ⟨htot⟩
    haveI : IsTrans α r := ⟨htr⟩
    have IH := find?_insertionSort_eq r htot htr p l
    have hsorted : List.Sorted r (List.insertionSort r l) := List.sorted_insertionSort r l
    rw [List.insertionSort_cons_eq_take_drop, List.find?_append]
    set s := List.insertionSort r l with hs
    cases hpa : p a with
    | false =>
      simp only [List.find?_cons, hpa, Bool.false_and]
      have hcongr : l.find? (fun x => p x && (a :: l).all (fun b => !(p b) || decide (r x b)))
          = l.find? (fun x => p x && l.all (fun b => !(p b) || decide (r x b))) := by
        apply findCongrMem
        intro x _
        rw [List.all_cons, hpa]
        simp
      rw [hcongr, ← IH]
      rw [← List.find?_append, List.takeWhile_append_dropWhile]
    | true =>
      by_cases hall : l.all (fun b => !(p b) || decide (r a b)) = true
      · -- a is below every p-element of l: it is both winners
        have hraa : r a a := (htot a a).elim id id
        have hQ2 : ((a :: l).all fun b => !(p b) || decide (r a b)) = true := by
          rw [List.all_cons, hall]
          simp [hraa]
        simp only [List.find?_cons, hpa, Bool.true_and, hQ2]
        have htnone : (s.takeWhile (fun x => decide ¬ (r a x))).find? p = none := by
          rw [List.find?_eq_none]
          intro x hx hpx
          have hnrx : ¬ r a x := by simpa using List.mem_takeWhile_imp hx
          have hxl : x ∈ l := (List.mem_insertionSort r).mp ((List.takeWhile_sublist _).subset hx)
          have := List.all_eq_true.mp hall x hxl
          rw [hpx] at this
          simp only [Bool.not_true, Bool.false_or, decide_eq_true_eq] at this
          exact hnrx this
        rw [htnone]
        rfl
      · -- some p-element of l is strictly below a
        have hex : ∃ b ∈ l, p b = true ∧ ¬ r a b := by
          by_contra hc
          push_neg at hc
          apply hall
          rw [List.all_eq_true]
          intro b hbl
          cases hpb : p b with
          | false => simp
          | true => simp [hc b hbl hpb]
        obtain ⟨b, hbl, hpb, hnab⟩ := hex
        have hQ2 : ((a :: l).all fun b' => !(p b') || decide (r a b')) = false := by
          rw [List.all_cons]
          cases h2 : l.all (fun b' => !(p b') || decide (r a b')) with
          | true => exact absurd h2 hall
          | false => simp
        simp only [List.find?_cons, hpa, Bool.true_and, hQ2]
        have hcongr : l.find? (fun x => p x && (a :: l).all (fun b' => !(p b') || decide (r x b')))
            = l.find? (fun x => p x && l.all (fun b' => !(p b') || decide (r x b'))) := by
          apply findCongrMem
          intro x _
          rw [List.all_cons, hpa]
          cases hpx : p x with
          | false => simp
          | true =>
            simp only [Bool.not_true, Bool.false_or, Bool.true_and]
            cases hA : l.all (fun b' => !(p b') || decide (r x b')) with
            | false => simp
            | true =>
              have hxb : r x b := by
                have := List.all_eq_true.mp hA b hbl
                rw [hpb] at this
                simpa using this
              have hba : r b a := (htot a b).resolve_left hnab
              have hxa : r x a := htr x b a hxb hba
              simp [hxa]
        rw [hcongr, ← IH]
        have hbt : b ∈ s.takeWhile (fun x => decide ¬ (r a x)) := by
          have hbs : b ∈ s := (List.mem_insertionSort r).mpr hbl
          exact mem_takeWhile_sorted r htr a hsorted hbs hnab
        cases hft : (s.takeWhile (fun x => decide ¬ (r a x))).find? p with
        | none => exact absurd hpb (List.find?_eq_none.mp hft b hbt)
        | some y =>
          have hsy : s.find? p = some y := by
            conv_lhs => rw [← List.takeWhile_append_dropWhile (fun x => decide ¬ (r a x)) s]
            rw [List.find?_append, hft]
            rfl
          rw [hsy]
          rfl

/-- C7: for every attendance table and every `(identity, date)` key, the
rows of `dedup_same_day t` carrying that key are exactly the first record
of `t`, in original row order, whose timestamp is minimal among the records
of `t` with that key: the sort by `(date, timestamp)` ascending plus
`keep="first"` implements earliest-check-in-wins with timestamp ties broken
by original row order (stable sort). -/
theorem c7_dedup_keeps_first (t : List AttendanceRecord) (k : Option String × Option Int) :
    (dedup_same_day t).filter (sameKey k) = (t.find? (tsMinFirst t k)).toList := by
  unfold dedup_same_day drop_duplicates
  have hA := dropDupBy_filter_key key2 k (List.insertionSort recLe t) []
  rw [if_neg (List.not_mem_nil k)] at hA
  have hstep : (dropDupBy key2 (List.insertionSort recLe t) []).filter (sameKey k)
      = ((List.insertionSort recLe t).find? (fun x => decide (key2 x = k))).toList := hA
  rw [hstep, find?_insertionSort_eq recLe recLe_total
    (fun a b c => recLe_trans a b c) (fun x => decide (key2 x = k)) t]
  congr 1
  apply findCongrMem
  intro a _
  unfold tsMinFirst sameKey
  cases hka : decide (key2 a = k) with
  | false => simp [hka]
  | true =>
    simp only [hka, Bool.true_and]
    apply allCongrMem
    intro b _
    cases hkb : decide (key2 b = k) with
    | false => simp [hkb]
    | true =>
      have ha : key2 a = k := of_decide_eq_true hka
      have hbk : key2 b = k := of_decide_eq_true hkb
      have hdate : a.date = b.date := by
        have h1 := congrArg Prod.snd ha
        have h2 := congrArg Prod.snd hbk
        simp only [key2] at h1 h2
        rw [h1, h2]
      simp only [hkb, Bool.not_true, Bool.false_or]
      rw [decide_recLe, leKeyB_of_same_date hdate]

/-- C8: window filtering plus deduplication is idempotent: applied to its
own output with the same valid window, it returns that output unchanged
(no rows removed or reordered). -/
theorem c8_window_dedup_idempotent (df : List AttendanceRecord) (startDate endDate : Int)
    (h : startDate ≤ endDate) :
    window_dedup (window_dedup df startDate endDate) startDate endDate
      = window_dedup df startDate endDate := by
  haveI : IsTotal AttendanceRecord recLe := ⟨recLe_total⟩
  haveI : IsTrans AttendanceRecord recLe := ⟨fun a b c => recLe_trans a b c⟩
  have hsub : List.Sublist (window_dedup df startDate endDate)
      (List.insertionSort recLe (filter_weeks df startDate endDate)) :=
    dropDupBy_sublist key2 _ []
  have husorted : List.Sorted recLe (window_dedup df startDate endDate) :=
    List.Pairwise.sublist hsub (List.sorted_insertionSort recLe _)
  have hupair : (window_dedup df startDate endDate).Pairwise (fun a b => key2 a ≠ key2 b) :=
    dropDupBy_pairwise key2 _ []
  have hfilter : filter_weeks (window_dedup df startDate endDate) startDate endDate
      = window_dedup df startDate endDate := by
    unfold filter_weeks
    rw [List.filter_eq_self]
    intro x hx
    have hx2 : x ∈ filter_weeks df startDate endDate :=
      (List.mem_insertionSort recLe).mp (hsub.subset hx)
    exact (List.mem_filter.mp hx2).2
  show dedup_same_day (filter_weeks (window_dedup df startDate endDate) startDate endDate)
      = window_dedup df startDate endDate
  rw [hfilter]
  unfold dedup_same_day drop_duplicates
  rw [husorted.insertionSort_eq]
  exact dropDupBy_eq_self key2 _ [] hupair (fun x _ => List.not_mem_nil (key2 x))

/-- C8 witness: the idempotence theorem applied to a concrete table with a
duplicate check-in, on the valid window [0, 100]. -/
theorem c8_witness :
    (0 : Int) ≤ 100 ∧
      window_dedup (window_dedup c8Table 0 100) 0 100 = window_dedup c8Table 0 100 :=
  ⟨by decide, c8_window_dedup_idempotent c8Table 0 100 (by decide)⟩

/-- A duplicate-free list has at most `w.length` members inside `w`. -/
theorem countP_mem_le_length {α : Type} [DecidableEq α] {l : List α} (hn : l.Nodup)
    (w : List α) : l.countP (fun d => decide (d ∈ w)) ≤ w.length := by
  rw [List.countP_eq_length_filter]
  refine (List.subperm_of_subset (hn.filter _) ?_).length_le
  intro x hx
  exact of_decide_eq_true (List.mem_filter.mp hx).2

/-- `sortedUniqueInts` has no duplicates. -/
theorem nodup_sortedUniqueInts (l : List Int) : (sortedUniqueInts l).Nodup := by
  have hnd : (drop_duplicates (fun d : Int => d) l).Nodup :=
    dropDupBy_pairwise (fun d : Int => d) l []
  exact ((List.perm_insertionSort _ _).nodup_iff).mpr hnd

/-- Week 1 holds at most three dates. -/
theorem week1_length_le (L : List Int) :
    (if 3 ≤ L.length then L.take 3 else L).length ≤ 3 := by
  split
  · simp [List.length_take]
  · next h => omega

/-- Week 2 holds at most three dates. -/
theorem week2_length_le (L : List Int) :
    (if 6 ≤ L.length then (L.drop 3).take 3 else L.drop 3).length ≤ 3 := by
  split
  · simp [List.length_take]
  · next h =>
    simp only [List.length_drop]
    omega

/-- C5: every row of the Attendance Aggregator satisfies
`0 ≤ week1_count ≤ 3`, `0 ≤ week2_count ≤ 3` (the counts are naturals, so
nonnegative by type), `max_possible = 6` and exactly
`percentage = (week1_count + week2_count) / 6 * 100`, regardless of how
many distinct lecture dates were observed. -/
theorem c5_counts_invariants (t : List AttendanceRecord) (row : CountsRow)
    (hrow : row ∈ (compute_counts t).1) :
    row.week1_count ≤ 3 ∧ row.week2_count ≤ 3 ∧ row.max_possible = 6 ∧
      row.percentage
        = ((row.week1_count : ℚ) + (row.week2_count : ℚ)) / 6 * 100 := by
  simp only [compute_counts, List.mem_map] at hrow
  obtain ⟨i, hi, hrw⟩ := hrow
  subst hrw
  refine ⟨?_, ?_, rfl, rfl⟩
  · exact le_trans (countP_mem_le_length (nodup_sortedUniqueInts _) _) (week1_length_le _)
  · exact le_trans (countP_mem_le_length (nodup_sortedUniqueInts _) _) (week2_length_le _)

/-- C5 witness: the invariants at the concrete counts row of `c5Table`. -/
theorem c5_witness :
    c5Row.week1_count ≤ 3 ∧ c5Row.week2_count ≤ 3 ∧ c5Row.max_possible = 6 ∧
      c5Row.percentage
        = ((c5Row.week1_count : ℚ) + (c5Row.week2_count : ℚ)) / 6 * 100 :=
  c5_counts_invariants c5Table c5Row (by
    rw [show (compute_counts c5Table).1 = [c5Row] from rfl]
    exact List.mem_singleton.mpr rfl)

/-- C4: auto mode selects the email join exactly when its coverage is at
least the id coverage (ties favor email), the id join otherwise, and the
selected coverage equals the maximum of the two independently computed
coverages.  The nonempty-roster hypothesis keeps the rational mean
faithful (pandas `mean()` of an empty frame would be `NaN`). -/
theorem c4_auto_join (counts : List CountsRow) (roster : Roster) (h : roster.rows ≠ []) :
    (try_join_modes counts roster).2.2
        = max (join_id_result counts roster).2 (join_email_result counts roster).2 ∧
      ((join_id_result counts roster).2 ≤ (join_email_result counts roster).2 →
        (try_join_modes counts roster).2.1 = "email" ∧
          (try_join_modes counts roster).1 = (join_email_result counts roster).1) ∧
      ((join_email_result counts roster).2 < (join_id_result counts roster).2 →
        (try_join_modes counts roster).2.1 = "id" ∧
          (try_join_modes counts roster).1 = (join_id_result counts roster).1) := by
  unfold try_join_modes
  by_cases hc : (join_id_result counts roster).2 ≤ (join_email_result counts roster).2
  · rw [if_pos hc]
    exact ⟨(max_eq_right hc).symm, fun _ => ⟨rfl, rfl⟩,
      fun hlt => absurd hlt (not_lt.mpr hc)⟩
  · rw [if_neg hc]
    exact ⟨(max_eq_left (le_of_lt (not_le.mp hc))).symm,
      fun hle => absurd hle hc, fun _ => ⟨rfl, rfl⟩⟩

/-- C4 witness at a concrete roster and counts table. -/
theorem c4_witness :
    (try_join_modes wCounts wRoster).2.2
        = max (join_id_result wCounts wRoster).2 (join_email_result wCounts wRoster).2 ∧
      ((join_id_result wCounts wRoster).2 ≤ (join_email_result wCounts wRoster).2 →
        (try_join_modes wCounts wRoster).2.1 = "email" ∧
          (try_join_modes wCounts wRoster).1 = (join_email_result wCounts wRoster).1) ∧
      ((join_email_result wCounts wRoster).2 < (join_id_result wCounts wRoster).2 →
        (try_join_modes wCounts wRoster).2.1 = "id" ∧
          (try_join_modes wCounts wRoster).1 = (join_id_result wCounts wRoster).1) :=
  c4_auto_join wCounts wRoster (by decide)

/-- C6: the roster join has left-join semantics: every roster row yields at
least one merged row, and a roster row matching no counts row survives
finalization as a row with `week1_count = week2_count = total_count =
percentage = 0` and `max_possible = 6`, rather than being dropped. -/
theorem c6_left_join (mf : RosterRow → CountsRow → Bool) (rows : List RosterRow)
    (counts : List CountsRow) (r : RosterRow) (hr : r ∈ rows) :
    (∃ p ∈ mergeLeft mf rows counts, p.1 = r) ∧
      ((∀ c ∈ counts, mf r c = false) →
        ∀ hasID hasSIS hasEmail : Bool,
          ({ student := r.disp
             id := if hasID then some r.idStr else none
             sisLoginId := if hasSIS then r.sisRaw else none
             email := if hasEmail then r.emailRaw else none
             week1_count := 0, week2_count := 0, total_count := 0
             max_possible := 6, percentage := 0 } : FinalRow) ∈
            finalize_output hasID hasSIS hasEmail (mergeLeft mf rows counts)) := by
  constructor
  · unfold mergeLeft
    cases hf : counts.filter (mf r) with
    | nil =>
      refine ⟨(r, none), ?_, rfl⟩
      rw [List.mem_flatMap]
      exact ⟨r, hr, by rw [hf]; exact List.mem_singleton.mpr rfl⟩
    | cons c cs =>
      refine ⟨(r, some c), ?_, rfl⟩
      rw [List.mem_flatMap]
      refine ⟨r, hr, ?_⟩
      rw [hf]
      exact List.mem_map.mpr ⟨c, List.mem_cons_self c cs, rfl⟩
  · intro hnone hasID hasSIS hasEmail
    have hf : counts.filter (mf r) = [] := by
      rw [List.filter_eq_nil_iff]
      intro c hc
      simp [hnone c hc]
    unfold finalize_output
    rw [List.mem_map]
    refine ⟨(r, none), ?_, rfl⟩
    unfold mergeLeft
    rw [List.mem_flatMap]
    exact ⟨r, hr, by rw [hf]; exact List.mem_singleton.mpr rfl⟩

/-- C6 witness: a roster row with no matching counts row survives the id
join with zero counts and `max_possible = 6`. -/
theorem c6_witness :
    (∃ p ∈ mergeLeft matchId [wRosterRow] [], p.1 = wRosterRow) ∧
      ({ student := wRosterRow.disp, id := some wRosterRow.idStr, sisLoginId := none,
         email := wRosterRow.emailRaw, week1_count := 0, week2_count := 0, total_count := 0,
         max_possible := 6, percentage := 0 } : FinalRow) ∈
        finalize_output true false true (mergeLeft matchId [wRosterRow] []) := by
  have h := c6_left_join matchId [wRosterRow] [] wRosterRow (List.mem_singleton.mpr rfl)
  refine ⟨h.1, ?_⟩
  simpa using h.2 (fun c hc => absurd hc (List.not_mem_nil c)) true false true

/-- C10: when the roster has none of the columns ID, SIS Login ID or
Email, `try_join_modes` returns `(None, "email", 0.0)` instead of a
descriptive error, and the service's auto-mode processing feeds that
`None` straight into `finalize_output`, which fails on it. -/
theorem c10_none_branch (counts : List CountsRow) (roster : Roster)
    (h1 : roster.hasID = false) (h2 : roster.hasSIS = false) (h3 : roster.hasEmail = false) :
    try_join_modes counts roster = (none, "email", 0) ∧
      run_auto_join counts roster
        = Except.error ("AttributeError: NoneType object has no attribute columns") := by
  have hid : join_id_result counts roster = (none, 0) := by
    simp [join_id_result, h1]
  have hem : join_email_result counts roster = (none, 0) := by
    simp [join_email_result, h2, h3]
  have htj : try_join_modes counts roster = (none, "email", 0) := by
    unfold try_join_modes
    rw [hid, hem]
    simp
  refine ⟨htj, ?_⟩
  unfold run_auto_join
  rw [htj]

/-- C10 witness at a concrete keyless roster. -/
theorem c10_witness :
    try_join_modes [] c10Roster = (none, "email", 0) ∧
      run_auto_join [] c10Roster
        = Except.error ("AttributeError: NoneType object has no attribute columns") :=
  c10_none_branch [] c10Roster rfl rfl rfl

/-- The element `find?` locates in a sorted list is below every matching
element of the list. -/
theorem find?_sorted_min {α : Type} (r : α → α → Prop) [DecidableRel r]
    (hrefl : ∀ a, r a a) (p : α → Bool) :
    ∀ (s : List α), List.Sorted r s → ∀ (y : α), s.find? p = some y →
      ∀ x ∈ s, p x = true → r y x
  | [], _, y, hf => by simp at hf
  | c :: s', hs, y, hf => by
    rcases List.sorted_cons.mp hs with ⟨hc, hs'⟩
    intro x hx hpx
    cases hpc : p c with
    | true =>
      rw [List.find?_cons_of_pos _ hpc] at hf
      injection hf with hf
      subst hf
      rcases List.mem_cons.mp hx with rfl | hx'
      · exact hrefl _
      · exact hc x hx'
    | false =>
      rw [List.find?_cons_of_neg _ (by simp [hpc])] at hf
      rcases List.mem_cons.mp hx with rfl | hx'
      · rw [hpc] at hpx
        cases hpx
      · exact find?_sorted_min r hrefl p s' hs' y hf x hx' hpx

/-- The nullable minimum with a missing value on the right is the left
argument. -/
theorem ominO_none (a : Option Int) : ominO a none = a := by
  cases a <;> rfl

/-- The nullable minimum returns one of its arguments. -/
theorem ominO_eq_or (a b : Option Int) : ominO a b = a ∨ ominO a b = b := by
  cases a with
  | none => exact Or.inr (by cases b <;> rfl)
  | some x =>
    cases b with
    | none => exact Or.inl rfl
    | some y =>
      rcases le_total x y with h | h
      · exact Or.inl (by simp [ominO, min_eq_left h])
      · exact Or.inr (by simp [ominO, min_eq_right h])

/-- A lower bound absorbs on the left. -/
theorem ominO_left {v z : Option Int} (h : oleN v z = true) : ominO v z = v := by
  cases v <;> cases z <;> simp_all [oleN, ominO, min_eq_left]

/-- A lower bound absorbs on the right. -/
theorem ominO_right {v z : Option Int} (h : oleN v z = true) : ominO z v = v := by
  cases v <;> cases z <;> simp_all [oleN, ominO, min_eq_right]

/-- The fold minimum is `none` or a member of the list. -/
theorem foldMinO_mem : ∀ l : List (Option Int), foldMinO l = none ∨ foldMinO l ∈ l
  | [] => Or.inl rfl
  | a :: l => by
    rw [show foldMinO (a :: l) = ominO a (foldMinO l) from rfl]
    rcases ominO_eq_or a (foldMinO l) with he | he
    · rw [he]
      exact Or.inr (List.mem_cons_self _ _)
    · rw [he]
      rcases foldMinO_mem l with h | h
      · exact Or.inl h
      · exact Or.inr (List.mem_cons_of_mem _ h)

/-- A member of the list that is below all members is the fold minimum. -/
theorem foldMinO_eq : ∀ {l : List (Option Int)} {v : Option Int}, v ∈ l →
    (∀ w ∈ l, oleN v w = true) → foldMinO l = v
  | [], v, hv, _ => absurd hv (List.not_mem_nil v)
  | a :: l, v, hv, hall => by
    rw [show foldMinO (a :: l) = ominO a (foldMinO l) from rfl]
    rcases List.mem_cons.mp hv with rfl | hv'
    · rcases foldMinO_mem l with h | h
      · rw [h, ominO_none]
      · exact ominO_left (hall _ (List.mem_cons_of_mem _ h))
    · have hrec : foldMinO l = v :=
        foldMinO_eq hv' (fun w hw => hall w (List.mem_cons_of_mem _ hw))
      rw [hrec]
      exact ominO_right (hall a (List.mem_cons_self _ _))

/-- Every representative kept by `mini` is below every record of its
identity, and its timestamp is exactly the earliest check-in timestamp of
that identity. -/
theorem miniOf_ts_min (t : List AttendanceRecord) (r : AttendanceRecord)
    (hr : r ∈ miniOf t) :
    (∀ x ∈ t, x.identity = r.identity → oleN r.ts x.ts = true) ∧
      earliestTs t r.identity = r.ts := by
  haveI : IsTotal AttendanceRecord leTs := ⟨leTs_total⟩
  haveI : IsTrans AttendanceRecord leTs := ⟨fun a b c => leTs_trans a b c⟩
  have hsorted : List.Sorted leTs (List.insertionSort leTs t) :=
    List.sorted_insertionSort leTs t
  have hA := dropDupBy_filter_key (fun x : AttendanceRecord => x.identity) r.identity
    (List.insertionSort leTs t) []
  rw [if_neg (List.not_mem_nil _)] at hA
  have hrf : r ∈ (dropDupBy (fun x : AttendanceRecord => x.identity)
      (List.insertionSort leTs t) []).filter (fun x => decide (x.identity = r.identity)) :=
    List.mem_filter.mpr ⟨hr, by simp⟩
  rw [hA] at hrf
  have hfind : (List.insertionSort leTs t).find? (fun x => decide (x.identity = r.identity))
      = some r := by
    cases hf : (List.insertionSort leTs t).find? (fun x => decide (x.identity = r.identity)) with
    | none =>
      rw [hf] at hrf
      simp at hrf
    | some y =>
      rw [hf] at hrf
      rw [List.mem_singleton.mp hrf]
  have hmin : ∀ x ∈ t, x.identity = r.identity → oleN r.ts x.ts = true := by
    intro x hx hid
    have hxs : x ∈ List.insertionSort leTs t := (List.mem_insertionSort leTs).mpr hx
    exact find?_sorted_min leTs (fun a => oleN_refl a.ts)
      (fun x => decide (x.identity = r.identity)) (List.insertionSort leTs t) hsorted r hfind
      x hxs (by simp [hid])
  refine ⟨hmin, ?_⟩
  have hrt : r ∈ t := (List.mem_insertionSort leTs).mp ((dropDupBy_sublist _ _ []).subset hr)
  unfold earliestTs
  apply foldMinO_eq
  · exact List.mem_map.mpr ⟨r, List.mem_filter.mpr ⟨hrt, by simp⟩, rfl⟩
  · intro w hw
    obtain ⟨x, hxf, hxw⟩ := List.mem_map.mp hw
    obtain ⟨hxt, hxid⟩ := List.mem_filter.mp hxf
    subst hxw
    exact hmin x hxt (of_decide_eq_true hxid)

/-- A pair of the zip of a mapped list with the list itself relates its
components. -/
theorem zip_map_fst {α β : Type} (g : α → β) :
    ∀ (l : List α) (pr : β × α), pr ∈ (l.map g).zip l → pr.1 = g pr.2
  | [], pr, h => absurd h (List.not_mem_nil pr)
  | a :: l, pr, h => by
    rw [List.map_cons, List.zip_cons_cons] at h
    rcases List.mem_cons.mp h with rfl | h'
    · rfl
    · exact zip_map_fst g l pr h'

/-- C9: the matrix has one row per identity (identities are pairwise
distinct and every identity of the table is represented), each row has one
0/1 indicator per selected date, an indicator is 0 whenever nobody
attended that date, `total_count` is the row sum of the indicators,
`max_possible = 6`, and rows are ordered by the earliest check-in
timestamp of their identity. -/
theorem c9_matrix (t : List AttendanceRecord) (sixDates : List Int) :
    ((write_matrix t sixDates).Pairwise
        (fun r1 r2 => oleN (earliestTs t r1.identity) (earliestTs t r2.identity) = true)) ∧
      ((write_matrix t sixDates).Pairwise (fun r1 r2 => r1.identity ≠ r2.identity)) ∧
      (∀ x ∈ t, ∃ row ∈ write_matrix t sixDates, row.identity = x.identity) ∧
      (∀ row ∈ write_matrix t sixDates,
        row.indicators.length = sixDates.length ∧
          (∀ v ∈ row.indicators, v = 0 ∨ v = 1) ∧
          row.total_count = row.indicators.sum ∧
          row.max_possible = 6) ∧
      (∀ row ∈ write_matrix t sixDates, ∀ pr ∈ row.indicators.zip sixDates,
        (∀ x ∈ t, x.date ≠ some pr.2) → pr.1 = 0) := by
  haveI : IsTotal AttendanceRecord leTs := ⟨leTs_total⟩
  haveI : IsTrans AttendanceRecord leTs := ⟨fun a b c => leTs_trans a b c⟩
  have hsubmini : List.Sublist (miniOf t) (List.insertionSort leTs t) :=
    dropDupBy_sublist _ _ []
  have hminisorted : List.Sorted leTs (miniOf t) :=
    List.Pairwise.sublist hsubmini (List.sorted_insertionSort leTs t)
  have hminipair : (miniOf t).Pairwise (fun a b => a.identity ≠ b.identity) :=
    dropDupBy_pairwise _ _ []
  refine ⟨?_, ?_, ?_, ?_, ?_⟩
  · refine List.pairwise_map.mpr ?_
    refine List.Pairwise.imp_of_mem ?_ hminisorted
    intro a b ha hb hab
    show oleN (earliestTs t a.identity) (earliestTs t b.identity) = true
    rw [(miniOf_ts_min t a ha).2, (miniOf_ts_min t b hb).2]
    exact hab
  · exact List.pairwise_map.mpr hminipair
  · intro x hx
    have hxs : x ∈ List.insertionSort leTs t := (List.mem_insertionSort leTs).mpr hx
    obtain ⟨y, hy, hky⟩ := exists_mem_dropDupBy (fun r : AttendanceRecord => r.identity)
      (List.insertionSort leTs t) [] x hxs (List.not_mem_nil _)
    exact ⟨_, List.mem_map.mpr ⟨y, hy, rfl⟩, hky⟩
  · intro row hrow
    simp only [write_matrix, List.mem_map] at hrow
    obtain ⟨r, hr, hrw⟩ := hrow
    subst hrw
    refine ⟨List.length_map _ _, ?_, rfl, rfl⟩
    intro v hv
    simp only [List.mem_map] at hv
    obtain ⟨d, hd, hvd⟩ := hv
    subst hvd
    cases hc : attendedB t r.identity d with
    | true => exact Or.inr (by simp [hc])
    | false => exact Or.inl (by simp [hc])
  · intro row hrow pr hpr hnd
    simp only [write_matrix, List.mem_map] at hrow
    obtain ⟨r, hr, hrw⟩ := hrow
    subst hrw
    have h1 : pr.1 = (if attendedB t r.identity pr.2 then (1 : Nat) else 0) :=
      zip_map_fst _ sixDates pr hpr
    rw [h1, if_neg ?_]
    intro hatt
    unfold attendedB at hatt
    rw [Bool.and_eq_true] at hatt
    obtain ⟨x, hx, hxd⟩ := List.any_eq_true.mp hatt.2
    rw [Bool.and_eq_true] at hxd
    exact hnd x hx (of_decide_eq_true hxd.2)

/-- C9 witness: one distinguished consequence (pairwise distinct row
identities) at a concrete table and date list. -/
theorem c9_witness :
    (write_matrix c8Table [2, 200]).Pairwise (fun r1 r2 => r1.identity ≠ r2.identity) :=
  (c9_matrix c8Table [2, 200]).2.1
